import Mathlib

/-!
Verification development for the `renew` VS Code extension
(`src/extension.ts`, final evolution: `replaceTextsAndImagesInHtml`,
`traverseNodes`, `replaceImage`, `getFilePathFromWorkspace`,
`replaceFileExtensionToPng`, `convertImageToPng`, `replaceText`).

Strings are embedded as `List Char`.  The JavaScript primitives the source
relies on (`String.prototype.trim`, `String.prototype.replace` with a string
pattern, including the `$$`/`$&` et cetera substitution patterns of the
replacement string) are embedded below.  The document tree is the
htmlparser2 DOM restricted to what `traverseNodes` inspects: `text` nodes
(node type text, field `data`), `tag` nodes (node type tag,
fields `name`, `attribs`, `children`) and all remaining node kinds
(`other`: comments, directives, script/style and cdata containers), which
the walker only recurses into via `node.children`.

External capabilities (OpenAI chat completion, DALL-E variation plus the
`ky` fetch, `sharp` encoding, the vscode workspace, the file system) are
parameters of the embedding (`Env`, `Workspace`); the walk records every
capability invocation in a `Log` so that claims about "calls made" and
"files written" are statements about the log.
-/

namespace Renew

/-- The character `$` (code point 36), special in a JS replacement string. -/
def dollarC : Char := Char.ofNat 36

/-- The character `&` (code point 38). -/
def ampC : Char := Char.ofNat 38

/-- The backquote character (code point 96). -/
def backquoteC : Char := Char.ofNat 96

/-- The single-quote character (code point 39). -/
def squoteC : Char := Char.ofNat 39

/-- Shorthand turning a Lean string literal into the `List Char` the
embedding computes with. -/
def s2l (s : String) : List Char := s.data

/-- JavaScript whitespace as removed by `String.prototype.trim`:
WhiteSpace and LineTerminator code points. -/
def jsIsWS (c : Char) : Bool :=
  [9, 10, 11, 12, 13, 32, 160, 5760, 8192, 8193, 8194, 8195, 8196, 8197,
   8198, 8199, 8200, 8201, 8202, 8232, 8233, 8239, 8287, 12288,
   65279].contains c.toNat

/-- The leading whitespace of a string (what `trim` removes at the front). -/
def leadWS (s : List Char) : List Char := s.takeWhile jsIsWS

/-- Embedding of `String.prototype.trim`. -/
def jsTrim (s : List Char) : List Char :=
  (((s.dropWhile jsIsWS).reverse).dropWhile jsIsWS).reverse

/-- The trailing whitespace of a string (what `trim` removes at the end). -/
def trailWS (s : List Char) : List Char :=
  (((s.dropWhile jsIsWS).reverse).takeWhile jsIsWS).reverse

/-- ECMA-262 GetSubstitution for a string pattern (no capture groups):
`$$` yields `$`, `$&` the matched substring, a dollar-backquote pair the
text before the match, a dollar-quote pair the text after the match;
everything else is copied verbatim. -/
def getSubstitution (matched before after : List Char) : List Char → List Char
  | [] => []
  | [c] => [c]
  | c1 :: c2 :: rest =>
    if c1 = dollarC then
      if c2 = dollarC then dollarC :: getSubstitution matched before after rest
      else if c2 = ampC then matched ++ getSubstitution matched before after rest
      else if c2 = backquoteC then before ++ getSubstitution matched before after rest
      else if c2 = squoteC then after ++ getSubstitution matched before after rest
      else c1 :: getSubstitution matched before after (c2 :: rest)
    else c1 :: getSubstitution matched before after (c2 :: rest)

/-- Index of the first occurrence of `pat` in a string, if any (the search
performed by `String.prototype.replace` with a string pattern). -/
def findSub (pat : List Char) : List Char → Option Nat
  | [] => if pat.isEmpty then some 0 else none
  | c :: rest =>
    if pat.isPrefixOf (c :: rest) then some 0
    else (findSub pat rest).map (· + 1)

/-- Embedding of `s.replace(pat, repl)` for a string pattern: the first
occurrence of `pat` is replaced by `repl` processed through
`getSubstitution`; if `pat` does not occur, `s` is returned unchanged. -/
def jsReplace (s pat repl : List Char) : List Char :=
  match findSub pat s with
  | none => s
  | some i =>
      s.take i ++ getSubstitution pat (s.take i) (s.drop (i + pat.length)) repl
        ++ s.drop (i + pat.length)

/-- The character `/` (code point 47), the posix path separator. -/
def slashC : Char := Char.ofNat 47

/-- The character `.` (code point 46). -/
def dotC : Char := Char.ofNat 46

/-- Index of the last occurrence of a character in a string, if any. -/
def lastIdxOf (c : Char) : List Char → Option Nat
  | [] => none
  | a :: rest =>
    match lastIdxOf c rest with
    | some i => some (i + 1)
    | none => if a = c then some 0 else none

/-- Embedding of `replaceFileExtensionToPng`: `path.parse` splits the path
into directory and base name; the extension (everything from the last dot
of the base, unless that dot is the first character of the base) is replaced by
`.png` via `path.format` with `base` removed and `ext` set to `.png`. -/
def replaceFileExtensionToPng (p : List Char) : List Char :=
  let base := (p.reverse.takeWhile (· != slashC)).reverse
  let dir := p.take (p.length - base.length)
  let name :=
    match lastIdxOf dotC base with
    | some i => if 0 < i then base.take i else base
    | none => base
  dir ++ name ++ s2l ".png"

mutual
/-- The htmlparser2 DOM as inspected by `traverseNodes`: `text` nodes carry
`data`; `tag` nodes carry `name`, `attribs` and `children`; every other
node kind (comment, directive, script, style, cdata) is only recursed
into through its `children` list. -/
inductive Node where
  | text (data : List Char)
  | tag (name : List Char) (attribs : List (List Char × List Char)) (children : Forest)
  | other (children : Forest)
deriving DecidableEq
inductive Forest where
  | nil
  | cons (head : Node) (tail : Forest)
deriving DecidableEq
end

/-- Lookup of a JS object property in the `attribs` map (htmlparser2 keeps
the first occurrence of a duplicated attribute). -/
def getAttr (k : List Char) : List (List Char × List Char) → Option (List Char)
  | [] => none
  | (a, v) :: rest => if a = k then some v else getAttr k rest

/-- Assignment `node.attribs.src = v`: overwrite the property when present,
add it otherwise. -/
def setAttr (k v : List Char) :
    List (List Char × List Char) → List (List Char × List Char)
  | [] => [(k, v)]
  | (a, w) :: rest => if a = k then (k, v) :: rest else (a, w) :: setAttr k v rest

/-- The mutable generation counters `textGenerations` and
`imageGenerations` of one run. -/
structure WalkState where
  textUsed : Nat
  imageUsed : Nat
deriving DecidableEq

/-- Exceptions that can escape `traverseNodes`: a failed chat completion
(`replaceText`), a failed DALL-E variation or `ky` fetch inside
`replaceImage`, or a failed `fs.writeFileSync` of the regenerated bytes.
`convertImageToPng` never throws (its body is wrapped in try/catch). -/
inductive WalkErr where
  | rephraseFail
  | regenFail
  | writeFail
deriving DecidableEq

/-- Record of the external calls a walk performed: workspace resolutions
(`getFilePathFromWorkspace`), rephrase requests with the trimmed text sent
(`replaceText`), normalizations as (input path, output path, succeeded)
triples (`convertImageToPng`), image-regeneration requests with the png
path read (`openai.images.createVariation`), and file writes
(`fs.writeFileSync`, both the one inside `convertImageToPng` and the one
saving the regenerated bytes). -/
structure Log where
  resolves : List (List Char)
  rephrases : List (List Char)
  normalizes : List (List Char × List Char × Bool)
  regens : List (List Char)
  writes : List (List Char)
deriving DecidableEq

/-- The empty log. -/
def Log.empty : Log := ⟨[], [], [], [], []⟩

/-- Concatenation of two logs, category by category. -/
def Log.append (l1 l2 : Log) : Log :=
  ⟨l1.resolves ++ l2.resolves, l1.rephrases ++ l2.rephrases,
   l1.normalizes ++ l2.normalizes, l1.regens ++ l2.regens,
   l1.writes ++ l2.writes⟩

/-- The external world of one run: the configured limits, the workspace
resolver, and the success/result behaviour of each capability.  Paths and
texts determine the outcomes, matching the single-threaded source where
the outcome of each call is a function of its input in a fixed environment. -/
structure Env where
  textLimit : Nat
  imageLimit : Nat
  resolve : List Char → Option (List Char)
  rephrase : List Char → Except Unit (List Char)
  normOk : List Char → Bool
  regenOk : List Char → Bool
  writeOk : List Char → Bool

/-- The check-and-increment performed on a generation counter (source:
`if (used >= limit) return;` followed by `used++`): succeed and increment
exactly when `used < limit`, otherwise fail and leave the counter alone. -/
def reserve (used limit : Nat) : Bool × Nat :=
  if used < limit then (true, used + 1) else (false, used)

/-- Effects of `convertImageToPng inputPath outputPath`: the conversion
attempt is always recorded and never throws; the output file is written
exactly when the encode/shrink succeeded (`normOk`), since on an error the
catch block skips `fs.writeFileSync`.  Returns (normalization records,
file writes). -/
def convertImageToPngE (ok : Bool) (inputPath outputPath : List Char) :
    List (List Char × List Char × Bool) × List (List Char) :=
  ([(inputPath, outputPath, ok)], if ok then [outputPath] else [])

/-- Effects of `replaceImage fp`: rename the extension to `.png`, run
`convertImageToPng` (which never throws but only writes the converted file
on success), then call the DALL-E variation capability on the converted
path, fetch the result and save it with `fs.writeFileSync`.  A failing
variation call / fetch, or a failing write, throws, in which case the
write of the regenerated bytes does not happen.  Returns the log of the
call together with the exception, if any. -/
def replaceImageE (env : Env) (fp : List Char) : Log × Option WalkErr :=
  let png := replaceFileExtensionToPng fp
  let ce := convertImageToPngE (env.normOk fp) fp png
  if env.regenOk png then
    if env.writeOk png then
      (⟨[], [], ce.1, [png], ce.2 ++ [png]⟩, none)
    else (⟨[], [], ce.1, [png], ce.2⟩, some .writeFail)
  else (⟨[], [], ce.1, [png], ce.2⟩, some .regenFail)

/-- Result of walking one node: the node after in-place mutation, the
counters, the log of external calls, and the exception that escaped, if
any (in which case `node` holds whatever incomplete mutation had happened). -/
structure NodeRes where
  node : Node
  state : WalkState
  log : Log
  err : Option WalkErr
deriving DecidableEq

/-- Result of walking a list of sibling nodes. -/
structure ForestRes where
  nodes : Forest
  state : WalkState
  log : Log
  err : Option WalkErr
deriving DecidableEq

mutual
/-- Embedding of `traverseNodes` (the final evolution, lines 342-378).
For an `img` tag with a truthy `src` attribute: resolve the file in the
workspace (returning early, skipping the children, when that fails), then
check `imageGenerations >= imageGenLimit` (returning early on exhaustion),
increment the counter, run `replaceImage` (convert to png, call the
variation model, fetch and write the bytes), and finally point
`node.attribs.src` at the `.png`-renamed path.  For a text node whose
trimmed `data` is nonempty: check `textGenerations >= textGenLimit`
(returning early on exhaustion), increment, send the trimmed text to
`replaceText` and splice the answer into `data` with `String.replace`.
Then recurse into `node.children`.  An exception aborts the traversal. -/
def traverseNodes (env : Env) : Node → WalkState → NodeRes
  | .text d, s =>
    if jsTrim d = [] then ⟨.text d, s, Log.empty, none⟩
    else
      match reserve s.textUsed env.textLimit with
      | (false, _) => ⟨.text d, s, Log.empty, none⟩
      | (true, u) =>
        match env.rephrase (jsTrim d) with
        | .error _ =>
            ⟨.text d, ⟨u, s.imageUsed⟩, ⟨[], [jsTrim d], [], [], []⟩,
              some .rephraseFail⟩
        | .ok repl =>
            ⟨.text (jsReplace d (jsTrim d) repl), ⟨u, s.imageUsed⟩,
              ⟨[], [jsTrim d], [], [], []⟩, none⟩
  | .tag nm attribs ch, s =>
    if nm = s2l "img" then
      match getAttr (s2l "src") attribs with
      | some sv =>
        if sv = [] then
          let rc := traverseForest env ch s
          ⟨.tag nm attribs rc.nodes, rc.state, rc.log, rc.err⟩
        else
          match env.resolve sv with
          | none => ⟨.tag nm attribs ch, s, ⟨[sv], [], [], [], []⟩, none⟩
          | some fp =>
            match reserve s.imageUsed env.imageLimit with
            | (false, _) => ⟨.tag nm attribs ch, s, ⟨[sv], [], [], [], []⟩, none⟩
            | (true, u) =>
              match replaceImageE env fp with
              | (lg, some e) =>
                  ⟨.tag nm attribs ch, ⟨s.textUsed, u⟩,
                    Log.append ⟨[sv], [], [], [], []⟩ lg, some e⟩
              | (lg, none) =>
                  let rc := traverseForest env ch ⟨s.textUsed, u⟩
                  ⟨.tag nm (setAttr (s2l "src") (replaceFileExtensionToPng sv) attribs)
                      rc.nodes,
                    rc.state,
                    Log.append ⟨[sv], [], [], [], []⟩ (Log.append lg rc.log),
                    rc.err⟩
      | none =>
        let rc := traverseForest env ch s
        ⟨.tag nm attribs rc.nodes, rc.state, rc.log, rc.err⟩
    else
      let rc := traverseForest env ch s
      ⟨.tag nm attribs rc.nodes, rc.state, rc.log, rc.err⟩
  | .other ch, s =>
    let rc := traverseForest env ch s
    ⟨.other rc.nodes, rc.state, rc.log, rc.err⟩
/-- The sibling loop `for (const child of node.children) await
traverseNodes(child)` (also the loop over `dom.children` in
`replaceTextsAndImagesInHtml`): nodes are visited left to right and an
exception stops the loop, leaving the remaining siblings untouched. -/
def traverseForest (env : Env) : Forest → WalkState → ForestRes
  | .nil, s => ⟨.nil, s, Log.empty, none⟩
  | .cons n t, s =>
    let r := traverseNodes env n s
    match r.err with
    | some e => ⟨.cons r.node t, r.state, r.log, some e⟩
    | none =>
      let rt := traverseForest env t r.state
      ⟨.cons r.node rt.nodes, rt.state, Log.append r.log rt.log, rt.err⟩
end

/-- The in-memory part of `replaceTextsAndImagesInHtml`: the walk over the
children of the parsed document with both counters fresh from the start of
the run (`imageGenerations = 0; textGenerations = 0`).  Parsing and
re-serialization are performed by the third-party htmlparser2 and
dom-serializer packages and are outside this embedding. -/
def replaceTextsAndImagesInDom (env : Env) (dom : Forest) : ForestRes :=
  traverseForest env dom ⟨0, 0⟩

/-! Observation functions on the document tree, used to state the claims. -/

mutual
/-- The `data` payloads of all text nodes below a node, in the pre-order in
which `traverseNodes` visits them. -/
def allTextData1 : Node → List (List Char)
  | .text d => [d]
  | .tag _ _ ch => allTextDataF ch
  | .other ch => allTextDataF ch
/-- The `data` payloads of all text nodes of a forest, in visit order. -/
def allTextDataF : Forest → List (List Char)
  | .nil => []
  | .cons n t => allTextData1 n ++ allTextDataF t
end

/-- The eligible entries of a list of text payloads: those with
non-whitespace content, each replaced by its trimmed value (the string
actually sent to the rephraser). -/
def eligOf (ds : List (List Char)) : List (List Char) :=
  ds.filterMap (fun d => if jsTrim d = [] then none else some (jsTrim d))

/-- The eligible text nodes below a node, as the trimmed strings sent to
the rephraser, in visit order. -/
def eligibleTexts1 (n : Node) : List (List Char) := eligOf (allTextData1 n)

/-- The eligible text nodes of a forest, in visit order. -/
def eligibleTextsF (f : Forest) : List (List Char) := eligOf (allTextDataF f)

/-- Reference transformation on the list of text payloads: rephrase (send
trimmed content, splice the answer back with `String.replace`) the first
`k` eligible payloads, leave every other payload untouched. -/
def rephraseFirst (f : List Char → List Char) : Nat → List (List Char) → List (List Char)
  | _, [] => []
  | k, d :: rest =>
    if jsTrim d = [] then d :: rephraseFirst f k rest
    else
      match k with
      | 0 => d :: rephraseFirst f 0 rest
      | k + 1 => jsReplace d (jsTrim d) (f (jsTrim d)) :: rephraseFirst f k rest

mutual
/-- Every `img` tag in the tree has an empty child list.  This holds for
every tree htmlparser2 produces, because `img` is an HTML void element. -/
def imgChildless1 : Node → Bool
  | .text _ => true
  | .tag nm _ ch =>
    (if nm = s2l "img" then ch = Forest.nil else true) && imgChildlessF ch
  | .other ch => imgChildlessF ch
/-- Conjunction of `imgChildless1` over a forest. -/
def imgChildlessF : Forest → Bool
  | .nil => true
  | .cons n t => imgChildless1 n && imgChildlessF t
end

/-- No text payload of the forest contains the character `$`, so that the
`$`-substitution patterns of `String.replace` cannot fire. -/
def dollarFreeF (f : Forest) : Prop := ∀ d ∈ allTextDataF f, dollarC ∉ d

/-- An environment in which every capability call succeeds, with the
rephraser given by the pure function `f`. -/
def Env.Succeeds (env : Env) (f : List Char → List Char) : Prop :=
  (∀ t, env.rephrase t = .ok (f t)) ∧ (∀ p, env.regenOk p = true) ∧
    (∀ p, env.writeOk p = true)

/-! Embedding of `getFilePathFromWorkspace` and `convertImageToPng`. -/

/-- The vscode workspace as consumed by `getFilePathFromWorkspace`:
whether any folder is open, what `findFiles` matches for a glob built from
a relative reference, and whether `workspace.fs.stat` succeeds on a URI. -/
structure Workspace where
  hasFolders : Bool
  findFiles : List Char → List (List Char)
  statOk : List Char → Bool

/-- Embedding of `getFilePathFromWorkspace`: with no workspace folder open
it reports an error and returns `undefined`; otherwise it searches with
`findFiles` and stats the first match.  When there is no match, `files[0]`
is `undefined` and the `stat` call throws, which the catch block turns
into `undefined` — never an exception to the caller.  A failing stat on an
existing match likewise yields `undefined`. -/
def getFilePathFromWorkspace (ws : Workspace) (fileName : List Char) :
    Option (List Char) :=
  if ws.hasFolders = false then none
  else
    match ws.findFiles fileName with
    | [] => none
    | p :: _ => if ws.statOk p then some p else none

/-- The constant `PNG_MAX_FILE_SIZE = 4 * 1024 * 1024` (4 MiB). -/
def PNG_MAX_FILE_SIZE : Nat := 4 * 1024 * 1024

/-- The `width`/`height`/`size` fields of the `info` object `sharp`
returns with `toBuffer({ resolveWithObject: true })`; `size` is the byte
length of the encoded buffer. -/
structure SharpInfo where
  width : Nat
  height : Nat
  size : Nat

/-- Embedding of `Math.round(w * 0.9)` for a natural pixel width. -/
def jsRound9 (w : Nat) : Nat := (9 * w + 5) / 10

/-- The shrink loop of `convertImageToPng`: while the encoded size exceeds
`PNG_MAX_FILE_SIZE`, resize the current buffer to 90 percent of its
current width (height chosen by `sharp` to preserve the aspect ratio) and
re-encode.  Here `resizeEncode d w` is the sharp resize-and-re-encode of buffer
`d` to requested width `w`; the `fuel` argument makes the embedding total,
`none` standing for a run of the source loop that has not terminated
within `fuel` iterations. -/
def shrinkLoop {α : Type} (resizeEncode : α → Nat → α × SharpInfo) :
    Nat → α × SharpInfo → Option (α × SharpInfo)
  | 0, _ => none
  | fuel + 1, (d, i) =>
    if PNG_MAX_FILE_SIZE < i.size then
      shrinkLoop resizeEncode fuel (resizeEncode d (jsRound9 i.width))
    else some (d, i)

/-! Concrete fixtures used by witnesses and counterexamples. -/

/-- Identity-capability environment: text limit 10, image limit 0, every
path resolving to itself, every capability succeeding. -/
def envIdNoImg : Env :=
  ⟨10, 0, fun p => some p, fun t => .ok t, fun _ => true, fun _ => true, fun _ => true⟩

/-- Identity-capability environment with image limit 1. -/
def envIdImg : Env :=
  ⟨10, 1, fun p => some p, fun t => .ok t, fun _ => true, fun _ => true, fun _ => true⟩

/-- Identity-capability environment with text limit 1. -/
def envIdT1 : Env :=
  ⟨1, 0, fun p => some p, fun t => .ok t, fun _ => true, fun _ => true, fun _ => true⟩

/-- Environment whose rephraser always answers "Greetings, world". -/
def envGreet : Env :=
  ⟨30, 0, fun p => some p, fun _ => .ok (s2l "Greetings, world"), fun _ => true,
    fun _ => true, fun _ => true⟩

/-- Environment whose rephraser always answers the two-character string of
two dollar signs. -/
def envDollar : Env :=
  ⟨10, 0, fun p => some p, fun _ => .ok (s2l "$$"), fun _ => true, fun _ => true,
    fun _ => true⟩

/-- Environment in which image normalization and regeneration fail. -/
def envNormFail : Env :=
  ⟨10, 1, fun p => some p, fun t => .ok t, fun _ => false, fun _ => false,
    fun _ => true⟩

/-- A document consisting of a single `img` element referencing `a.jpg`. -/
def docOneImg : Forest :=
  .cons (.tag (s2l "img") [(s2l "src", s2l "a.jpg")] .nil) .nil

/-- A document consisting of two text nodes. -/
def docTwoTexts : Forest :=
  .cons (.text (s2l "one")) (.cons (.text (s2l "two")) .nil)

/-- The three-character text payload consisting of the letter `a`, a dollar
sign and a backquote, on which an identity rephrase is not the identity
because of the dollar-backquote substitution pattern. -/
def trickyText : List Char := [Char.ofNat 97, dollarC, backquoteC]

/-! Lemmas about the JS string primitives. -/

theorem getSubstitution_of_no_dollar (m b a : List Char) :
    ∀ repl, dollarC ∉ repl → getSubstitution m b a repl = repl := by
  intro repl
  induction repl with
  | nil => intro _; rfl
  | cons c1 rest ih =>
    intro h
    have hc1 : ¬ c1 = dollarC := fun e => h (by rw [e]; exact List.mem_cons_self _ _)
    cases rest with
    | nil => simp [getSubstitution]
    | cons c2 rest2 =>
      have h2 : dollarC ∉ c2 :: rest2 := fun hm => h (List.mem_cons_of_mem _ hm)
      simp [getSubstitution, hc1, ih h2]

theorem jsTrim_append_trailWS (s : List Char) :
    jsTrim s ++ trailWS s = s.dropWhile jsIsWS := by
  unfold jsTrim trailWS
  rw [← List.reverse_append, List.takeWhile_append_dropWhile, List.reverse_reverse]

theorem leadWS_decomp (s : List Char) :
    leadWS s ++ (jsTrim s ++ trailWS s) = s := by
  rw [jsTrim_append_trailWS]
  exact List.takeWhile_append_dropWhile jsIsWS s

theorem mem_leadWS_ws (s : List Char) {c : Char} (h : c ∈ leadWS s) :
    jsIsWS c = true := List.mem_takeWhile_imp h

theorem mem_trailWS_ws (s : List Char) {c : Char} (h : c ∈ trailWS s) :
    jsIsWS c = true := by
  unfold trailWS at h
  exact List.mem_takeWhile_imp (List.mem_reverse.mp h)

theorem dropWhile_head_false (p : Char → Bool) :
    ∀ (l : List Char) (c : Char) (t : List Char),
      List.dropWhile p l = c :: t → p c = false := by
  intro l
  induction l with
  | nil => intro c t h; exact absurd h (by simp)
  | cons a l ih =>
    intro c t h
    rw [List.dropWhile_cons] at h
    split at h
    · exact ih c t h
    · rename_i hp
      injection h with h1 _
      rw [← h1]
      exact Bool.not_eq_true _ |>.mp hp

theorem jsTrim_head (s : List Char) (h : jsTrim s ≠ []) :
    ∃ c t, jsTrim s = c :: t ∧ jsIsWS c = false := by
  obtain ⟨c, t, e⟩ : ∃ c t, jsTrim s = c :: t := by
    cases hh : jsTrim s with
    | nil => exact absurd hh h
    | cons c t => exact ⟨c, t, rfl⟩
  refine ⟨c, t, e, ?_⟩
  have hm : s.dropWhile jsIsWS = c :: (t ++ trailWS s) := by
    rw [← jsTrim_append_trailWS, e]; rfl
  exact dropWhile_head_false jsIsWS s c _ hm

theorem findSub_ws_lead (c : Char) (pt rest : List Char) (hc : jsIsWS c = false) :
    ∀ lead : List Char, (∀ w ∈ lead, jsIsWS w = true) →
      findSub (c :: pt) (lead ++ ((c :: pt) ++ rest)) = some lead.length := by
  intro lead
  induction lead with
  | nil =>
    intro _
    have he : ([] : List Char) ++ ((c :: pt) ++ rest) = c :: (pt ++ rest) := rfl
    rw [he]
    have hp : (c :: pt).isPrefixOf (c :: (pt ++ rest)) = true :=
      List.isPrefixOf_iff_prefix.mpr (List.prefix_append _ _)
    simp [findSub, hp]
  | cons w lead ih =>
    intro hws
    have hw : jsIsWS w = true := hws w (List.mem_cons_self _ _)
    have hcw : (c == w) = false := by
      apply beq_eq_false_iff_ne.mpr
      intro e
      rw [e, hw] at hc
      exact Bool.noConfusion hc
    have hres : findSub (c :: pt) (lead ++ ((c :: pt) ++ rest)) = some lead.length :=
      ih (fun x hx => hws x (List.mem_cons_of_mem _ hx))
    have hnp : (c :: pt).isPrefixOf (w :: (lead ++ ((c :: pt) ++ rest))) = false := by
      show (c == w && pt.isPrefixOf (lead ++ ((c :: pt) ++ rest))) = false
      rw [hcw]; rfl
    show findSub (c :: pt) (w :: (lead ++ ((c :: pt) ++ rest))) = some (lead.length + 1)
    rw [findSub, if_neg (by rw [hnp]; exact Bool.noConfusion), hres]
    rfl

theorem jsReplace_trim (s repl : List Char) (h : jsTrim s ≠ []) :
    jsReplace s (jsTrim s) repl =
      leadWS s ++ (getSubstitution (jsTrim s) (leadWS s) (trailWS s) repl ++ trailWS s) := by
  obtain ⟨c, t, e, hc⟩ := jsTrim_head s h
  have hdecomp := leadWS_decomp s
  have hfind : findSub (jsTrim s) s = some (leadWS s).length := by
    conv_lhs => rw [e, ← hdecomp, e]
    exact findSub_ws_lead c t (trailWS s) hc (leadWS s) (fun w hw => mem_leadWS_ws s hw)
  have htakeg : ∀ L T R : List Char, L ++ (T ++ R) = s → s.take L.length = L := by
    intro L T R hLTR
    rw [← hLTR]
    exact List.take_left _ _
  have hdropg : ∀ L T R : List Char, L ++ (T ++ R) = s →
      s.drop (L.length + T.length) = R := by
    intro L T R hLTR
    rw [← hLTR, ← List.length_append, ← List.append_assoc]
    exact List.drop_left _ _
  have htake : s.take (leadWS s).length = leadWS s :=
    htakeg _ _ _ hdecomp
  have hdrop : s.drop ((leadWS s).length + (jsTrim s).length) = trailWS s :=
    hdropg _ _ _ hdecomp
  unfold jsReplace
  rw [hfind]
  show s.take (leadWS s).length ++
      getSubstitution (jsTrim s) (s.take (leadWS s).length)
        (s.drop ((leadWS s).length + (jsTrim s).length)) repl ++
      s.drop ((leadWS s).length + (jsTrim s).length) =
    leadWS s ++ (getSubstitution (jsTrim s) (leadWS s) (trailWS s) repl ++ trailWS s)
  rw [htake, hdrop, List.append_assoc]

theorem jsReplace_trim_no_dollar (s repl : List Char) (h : jsTrim s ≠ [])
    (hd : dollarC ∉ repl) :
    jsReplace s (jsTrim s) repl = leadWS s ++ (repl ++ trailWS s) := by
  rw [jsReplace_trim s repl h, getSubstitution_of_no_dollar _ _ _ repl hd]

theorem not_dollar_jsTrim (s : List Char) (hd : dollarC ∉ s) : dollarC ∉ jsTrim s := by
  intro hm
  exact hd (by rw [← leadWS_decomp s]; simp [hm])

theorem jsReplace_trim_self (s : List Char) (h : jsTrim s ≠ []) (hd : dollarC ∉ s) :
    jsReplace s (jsTrim s) (jsTrim s) = s := by
  rw [jsReplace_trim_no_dollar s (jsTrim s) h (not_dollar_jsTrim s hd)]
  exact leadWS_decomp s

/-! Helper lemmas about the walk. -/

theorem replaceImageE_cases (env : Env) (fp : List Char) :
    (replaceImageE env fp).1.resolves = [] ∧
      (replaceImageE env fp).1.rephrases = [] := by
  unfold replaceImageE convertImageToPngE
  by_cases h1 : env.regenOk (replaceFileExtensionToPng fp) <;>
    by_cases h2 : env.writeOk (replaceFileExtensionToPng fp) <;> simp [h1, h2]

theorem traverseNodes_img_unresolved (env : Env) (nm : List Char)
    (attribs : List (List Char × List Char)) (ch : Forest) (sv : List Char)
    (hnm : nm = s2l "img") (hsv : getAttr (s2l "src") attribs = some sv)
    (hne : sv ≠ []) (hres : env.resolve sv = none) (s : WalkState) :
    traverseNodes env (.tag nm attribs ch) s =
      ⟨.tag nm attribs ch, s, ⟨[sv], [], [], [], []⟩, none⟩ := by
  subst hnm
  simp [traverseNodes, hsv, hne, hres]

mutual
theorem traverseNodes_budget (env : Env) (n : Node) (s : WalkState)
    (ht : s.textUsed ≤ env.textLimit) (hi : s.imageUsed ≤ env.imageLimit) :
    (traverseNodes env n s).state.textUsed ≤ env.textLimit ∧
      (traverseNodes env n s).state.imageUsed ≤ env.imageLimit := by
  cases n with
  | text d =>
    by_cases h0 : jsTrim d = []
    · simp [traverseNodes, h0]; exact ⟨ht, hi⟩
    · by_cases hlt : s.textUsed < env.textLimit
      · cases hr : env.rephrase (jsTrim d) with
        | error e =>
          simp [traverseNodes, h0, reserve, hlt, hr]
          exact ⟨hlt, hi⟩
        | ok repl =>
          simp [traverseNodes, h0, reserve, hlt, hr]
          exact ⟨hlt, hi⟩
      · simp [traverseNodes, h0, reserve, hlt]; exact ⟨ht, hi⟩
  | tag nm attribs ch =>
    by_cases himg : nm = s2l "img"
    · subst himg
      cases hsv : getAttr (s2l "src") attribs with
      | none =>
        simp [traverseNodes, hsv]
        exact traverseForest_budget env ch s ht hi
      | some sv =>
        by_cases hemp : sv = []
        · simp [traverseNodes, hsv, hemp]
          exact traverseForest_budget env ch s ht hi
        · cases hres : env.resolve sv with
          | none => simp [traverseNodes, hsv, hemp, hres]; exact ⟨ht, hi⟩
          | some fp =>
            by_cases hlim : s.imageUsed < env.imageLimit
            · cases hri : replaceImageE env fp with
              | mk lg oe =>
                cases oe with
                | some e =>
                  simp [traverseNodes, hsv, hemp, hres, reserve, hlim, hri]
                  exact ⟨ht, hlim⟩
                | none =>
                  simp [traverseNodes, hsv, hemp, hres, reserve, hlim, hri]
                  exact traverseForest_budget env ch ⟨s.textUsed, s.imageUsed + 1⟩ ht hlim
            · simp [traverseNodes, hsv, hemp, hres, reserve, hlim]; exact ⟨ht, hi⟩
    · simp [traverseNodes, himg]
      exact traverseForest_budget env ch s ht hi
  | other ch =>
    simp [traverseNodes]
    exact traverseForest_budget env ch s ht hi
theorem traverseForest_budget (env : Env) (f : Forest) (s : WalkState)
    (ht : s.textUsed ≤ env.textLimit) (hi : s.imageUsed ≤ env.imageLimit) :
    (traverseForest env f s).state.textUsed ≤ env.textLimit ∧
      (traverseForest env f s).state.imageUsed ≤ env.imageLimit := by
  cases f with
  | nil => simp [traverseForest]; exact ⟨ht, hi⟩
  | cons n t =>
    have h1 := traverseNodes_budget env n s ht hi
    cases he : (traverseNodes env n s).err with
    | some e => simp [traverseForest, he]; exact h1
    | none =>
      have h2 := traverseForest_budget env t (traverseNodes env n s).state h1.1 h1.2
      simp [traverseForest, he]
      exact h2
end

mutual
theorem traverseNodes_img_disabled (env : Env) (h0 : env.imageLimit = 0)
    (n : Node) (s : WalkState) :
    (traverseNodes env n s).log.normalizes = [] ∧
      (traverseNodes env n s).log.regens = [] ∧
      (traverseNodes env n s).log.writes = [] := by
  cases n with
  | text d =>
    by_cases ht : jsTrim d = []
    · simp [traverseNodes, ht, Log.empty]
    · by_cases hlt : s.textUsed < env.textLimit
      · cases hr : env.rephrase (jsTrim d) with
        | error e => simp [traverseNodes, ht, reserve, hlt, hr]
        | ok repl => simp [traverseNodes, ht, reserve, hlt, hr]
      · simp [traverseNodes, ht, reserve, hlt, Log.empty]
  | tag nm attribs ch =>
    by_cases himg : nm = s2l "img"
    · subst himg
      cases hsv : getAttr (s2l "src") attribs with
      | none =>
        simp [traverseNodes, hsv]
        exact traverseForest_img_disabled env h0 ch s
      | some sv =>
        by_cases hemp : sv = []
        · simp [traverseNodes, hsv, hemp]
          exact traverseForest_img_disabled env h0 ch s
        · cases hres : env.resolve sv with
          | none => simp [traverseNodes, hsv, hemp, hres]
          | some fp =>
            have hlim : ¬ s.imageUsed < env.imageLimit := by
              rw [h0]; exact Nat.not_lt_zero _
            simp [traverseNodes, hsv, hemp, hres, reserve, hlim]
    · simp [traverseNodes, himg]
      exact traverseForest_img_disabled env h0 ch s
  | other ch =>
    simp [traverseNodes]
    exact traverseForest_img_disabled env h0 ch s
theorem traverseForest_img_disabled (env : Env) (h0 : env.imageLimit = 0)
    (f : Forest) (s : WalkState) :
    (traverseForest env f s).log.normalizes = [] ∧
      (traverseForest env f s).log.regens = [] ∧
      (traverseForest env f s).log.writes = [] := by
  cases f with
  | nil => simp [traverseForest, Log.empty]
  | cons n t =>
    have h1 := traverseNodes_img_disabled env h0 n s
    cases he : (traverseNodes env n s).err with
    | some e => simp [traverseForest, he]; exact h1
    | none =>
      have h2 := traverseForest_img_disabled env h0 t (traverseNodes env n s).state
      simp [traverseForest, he, Log.append]
      exact ⟨⟨h1.1, h2.1⟩, ⟨h1.2.1, h2.2.1⟩, h1.2.2, h2.2.2⟩
end

mutual
theorem traverseNodes_identity (env : Env)
    (hrep : ∀ t, env.rephrase t = .ok t) (h0 : env.imageLimit = 0) (n : Node)
    (hdf : ∀ d ∈ allTextData1 n, dollarC ∉ d) (s : WalkState) :
    (traverseNodes env n s).node = n ∧ (traverseNodes env n s).err = none := by
  cases n with
  | text d =>
    by_cases ht : jsTrim d = []
    · simp [traverseNodes, ht]
    · by_cases hlt : s.textUsed < env.textLimit
      · have hd : dollarC ∉ d := hdf d (by simp [allTextData1])
        simp [traverseNodes, ht, reserve, hlt, hrep (jsTrim d),
          jsReplace_trim_self d ht hd]
      · simp [traverseNodes, ht, reserve, hlt]
  | tag nm attribs ch =>
    have hch : ∀ d ∈ allTextDataF ch, dollarC ∉ d := by
      intro d hd; exact hdf d (by simp [allTextData1, hd])
    by_cases himg : nm = s2l "img"
    · subst himg
      cases hsv : getAttr (s2l "src") attribs with
      | none =>
        have hih := traverseForest_identity env hrep h0 ch hch s
        simp [traverseNodes, hsv, hih.1, hih.2]
      | some sv =>
        by_cases hemp : sv = []
        · have hih := traverseForest_identity env hrep h0 ch hch s
          simp [traverseNodes, hsv, hemp, hih.1, hih.2]
        · cases hres : env.resolve sv with
          | none => simp [traverseNodes, hsv, hemp, hres]
          | some fp =>
            have hlim : ¬ s.imageUsed < env.imageLimit := by
              rw [h0]; exact Nat.not_lt_zero _
            simp [traverseNodes, hsv, hemp, hres, reserve, hlim]
    · have hih := traverseForest_identity env hrep h0 ch hch s
      simp [traverseNodes, himg, hih.1, hih.2]
  | other ch =>
    have hch : ∀ d ∈ allTextDataF ch, dollarC ∉ d := by
      intro d hd; exact hdf d (by simp [allTextData1, hd])
    have hih := traverseForest_identity env hrep h0 ch hch s
    simp [traverseNodes, hih.1, hih.2]
theorem traverseForest_identity (env : Env)
    (hrep : ∀ t, env.rephrase t = .ok t) (h0 : env.imageLimit = 0) (f : Forest)
    (hdf : ∀ d ∈ allTextDataF f, dollarC ∉ d) (s : WalkState) :
    (traverseForest env f s).nodes = f ∧ (traverseForest env f s).err = none := by
  cases f with
  | nil => simp [traverseForest]
  | cons n t =>
    have h1 := traverseNodes_identity env hrep h0 n
      (fun d hd => hdf d (by simp [allTextDataF, hd])) s
    have h2 := traverseForest_identity env hrep h0 t
      (fun d hd => hdf d (by simp [allTextDataF, hd])) (traverseNodes env n s).state
    simp [traverseForest, h1.1, h1.2, h2.1, h2.2]
end


theorem eligOf_nil : eligOf [] = [] := rfl

theorem eligOf_cons (d : List Char) (X : List (List Char)) :
    eligOf (d :: X)
      = if jsTrim d = [] then eligOf X else jsTrim d :: eligOf X := by
  by_cases h : jsTrim d = [] <;> simp [eligOf, List.filterMap_cons, h]

theorem eligOf_append (X Y : List (List Char)) :
    eligOf (X ++ Y) = eligOf X ++ eligOf Y := by
  simp [eligOf, List.filterMap_append]

theorem rephraseFirst_append (f : List Char → List Char) :
    ∀ (X : List (List Char)) (b : Nat) (Y : List (List Char)),
      rephraseFirst f b (X ++ Y)
        = rephraseFirst f b X ++ rephraseFirst f (b - (eligOf X).length) Y := by
  intro X
  induction X with
  | nil => intro b Y; simp [rephraseFirst, eligOf]
  | cons d X ih =>
    intro b Y
    by_cases h0 : jsTrim d = []
    · simp [rephraseFirst, h0, eligOf_cons, ih b Y]
    · cases b with
      | zero =>
        have hz : ∀ Z : List (List Char), rephraseFirst f 0 Z = Z := by
          intro Z
          induction Z with
          | nil => simp [rephraseFirst]
          | cons e Z ihz =>
            by_cases he : jsTrim e = [] <;> simp [rephraseFirst, he, ihz]
        simp [hz]
      | succ k =>
        have hlen : k + 1 - (eligOf (d :: X)).length = k - (eligOf X).length := by
          simp [eligOf_cons, h0]
        simp [rephraseFirst, h0, ih k Y, hlen]

theorem rephraseFirst_zero (f : List Char → List Char) (Z : List (List Char)) :
    rephraseFirst f 0 Z = Z := by
  induction Z with
  | nil => simp [rephraseFirst]
  | cons e Z ihz => by_cases he : jsTrim e = [] <;> simp [rephraseFirst, he, ihz]

theorem replaceImageE_succeeds (env : Env) (g : List Char → List Char)
    (henv : Env.Succeeds env g) (fp : List Char) :
    replaceImageE env fp
      = (⟨[], [], [(fp, replaceFileExtensionToPng fp, env.normOk fp)],
            [replaceFileExtensionToPng fp],
            (if env.normOk fp then [replaceFileExtensionToPng fp] else [])
              ++ [replaceFileExtensionToPng fp]⟩,
          none) := by
  unfold replaceImageE convertImageToPngE
  simp [henv.2.1 (replaceFileExtensionToPng fp), henv.2.2 (replaceFileExtensionToPng fp)]

mutual
theorem traverseNodes_text_budget (env : Env) (g : List Char → List Char)
    (henv : Env.Succeeds env g) (n : Node) (himg : imgChildless1 n = true)
    (s : WalkState) :
    (traverseNodes env n s).err = none ∧
      (traverseNodes env n s).log.rephrases
        = (eligibleTexts1 n).take (env.textLimit - s.textUsed) ∧
      allTextData1 (traverseNodes env n s).node
        = rephraseFirst g (env.textLimit - s.textUsed) (allTextData1 n) ∧
      (traverseNodes env n s).state.textUsed
        = s.textUsed + min (env.textLimit - s.textUsed) (eligibleTexts1 n).length := by
  cases n with
  | text d =>
    by_cases ht : jsTrim d = []
    · refine ⟨by simp [traverseNodes, ht], ?_, ?_, ?_⟩
      · simp [traverseNodes, ht, Log.empty, eligibleTexts1, allTextData1,
          eligOf_cons, eligOf_nil]
      · simp [traverseNodes, ht, allTextData1, rephraseFirst]
      · simp [traverseNodes, ht, eligibleTexts1, allTextData1, eligOf_cons, eligOf_nil]
    · by_cases hlt : s.textUsed < env.textLimit
      · obtain ⟨k, hk⟩ : ∃ k, env.textLimit - s.textUsed = k + 1 :=
          ⟨env.textLimit - s.textUsed - 1, by omega⟩
        refine ⟨?_, ?_, ?_, ?_⟩
        · simp [traverseNodes, ht, reserve, hlt, henv.1 (jsTrim d)]
        · simp [traverseNodes, ht, reserve, hlt, henv.1 (jsTrim d),
            eligibleTexts1, allTextData1, eligOf_cons, eligOf_nil, hk]
        · simp [traverseNodes, ht, reserve, hlt, henv.1 (jsTrim d),
            allTextData1, hk, rephraseFirst]
        · simp [traverseNodes, ht, reserve, hlt, henv.1 (jsTrim d),
            eligibleTexts1, allTextData1, eligOf_cons, eligOf_nil, hk]
      · have hz : env.textLimit - s.textUsed = 0 := by omega
        refine ⟨by simp [traverseNodes, ht, reserve, hlt], ?_, ?_, ?_⟩
        · simp [traverseNodes, ht, reserve, hlt, Log.empty, hz]
        · simp [traverseNodes, ht, reserve, hlt, allTextData1, hz, rephraseFirst_zero]
        · simp [traverseNodes, ht, reserve, hlt, hz]
  | tag nm attribs ch =>
    have himg2 := himg
    rw [imgChildless1, Bool.and_eq_true] at himg2
    by_cases hn : nm = s2l "img"
    · subst hn
      have hnil : ch = Forest.nil := by
        have h := himg2.1
        simpa using h
      subst hnil
      cases hsv : getAttr (s2l "src") attribs with
      | none =>
        obtain ⟨e1, e2, e3, e4⟩ :=
          traverseForest_text_budget env g henv .nil (by simp [imgChildlessF]) s
        refine ⟨?_, ?_, ?_, ?_⟩
        · simpa [traverseNodes, hsv] using e1
        · simpa [traverseNodes, hsv, eligibleTexts1, eligibleTextsF, allTextData1]
            using e2
        · simpa [traverseNodes, hsv, allTextData1] using e3
        · simpa [traverseNodes, hsv, eligibleTexts1, eligibleTextsF, allTextData1]
            using e4
      | some sv =>
        by_cases hemp : sv = []
        · obtain ⟨e1, e2, e3, e4⟩ :=
            traverseForest_text_budget env g henv .nil (by simp [imgChildlessF]) s
          refine ⟨?_, ?_, ?_, ?_⟩
          · simpa [traverseNodes, hsv, hemp] using e1
          · simpa [traverseNodes, hsv, hemp, eligibleTexts1, eligibleTextsF,
              allTextData1] using e2
          · simpa [traverseNodes, hsv, hemp, allTextData1] using e3
          · simpa [traverseNodes, hsv, hemp, eligibleTexts1, eligibleTextsF,
              allTextData1] using e4
        · cases hres : env.resolve sv with
          | none =>
            refine ⟨?_, ?_, ?_, ?_⟩ <;>
              simp [traverseNodes, hsv, hemp, hres, eligibleTexts1, allTextData1,
                allTextDataF, eligOf_nil, rephraseFirst]
          | some fp =>
            by_cases hlim : s.imageUsed < env.imageLimit
            · refine ⟨?_, ?_, ?_, ?_⟩ <;>
                simp [traverseNodes, hsv, hemp, hres, reserve, hlim,
                  replaceImageE_succeeds env g henv fp, traverseForest,
                  Log.append, Log.empty, eligibleTexts1, allTextData1,
                  allTextDataF, eligOf_nil, rephraseFirst]
            · refine ⟨?_, ?_, ?_, ?_⟩ <;>
                simp [traverseNodes, hsv, hemp, hres, reserve, hlim,
                  eligibleTexts1, allTextData1, allTextDataF, eligOf_nil,
                  rephraseFirst]
    · obtain ⟨e1, e2, e3, e4⟩ := traverseForest_text_budget env g henv ch himg2.2 s
      refine ⟨?_, ?_, ?_, ?_⟩
      · simpa [traverseNodes, hn] using e1
      · simpa [traverseNodes, hn, eligibleTexts1, eligibleTextsF, allTextData1]
          using e2
      · simpa [traverseNodes, hn, allTextData1] using e3
      · simpa [traverseNodes, hn, eligibleTexts1, eligibleTextsF, allTextData1]
          using e4
  | other ch =>
    have hch : imgChildlessF ch = true := by
      have h := himg
      rw [imgChildless1] at h
      exact h
    obtain ⟨e1, e2, e3, e4⟩ := traverseForest_text_budget env g henv ch hch s
    refine ⟨?_, ?_, ?_, ?_⟩
    · simpa [traverseNodes] using e1
    · simpa [traverseNodes, eligibleTexts1, eligibleTextsF, allTextData1] using e2
    · simpa [traverseNodes, allTextData1] using e3
    · simpa [traverseNodes, eligibleTexts1, eligibleTextsF, allTextData1] using e4
theorem traverseForest_text_budget (env : Env) (g : List Char → List Char)
    (henv : Env.Succeeds env g) (f : Forest) (himg : imgChildlessF f = true)
    (s : WalkState) :
    (traverseForest env f s).err = none ∧
      (traverseForest env f s).log.rephrases
        = (eligibleTextsF f).take (env.textLimit - s.textUsed) ∧
      allTextDataF (traverseForest env f s).nodes
        = rephraseFirst g (env.textLimit - s.textUsed) (allTextDataF f) ∧
      (traverseForest env f s).state.textUsed
        = s.textUsed + min (env.textLimit - s.textUsed) (eligibleTextsF f).length := by
  cases f with
  | nil =>
    refine ⟨by simp [traverseForest], ?_, ?_, ?_⟩ <;>
      simp [traverseForest, Log.empty, eligibleTextsF, allTextDataF, eligOf_nil,
        rephraseFirst]
  | cons n t =>
    have himg2 := himg
    rw [imgChildlessF, Bool.and_eq_true] at himg2
    obtain ⟨e1, e2, e3, e4⟩ := traverseNodes_text_budget env g henv n himg2.1 s
    obtain ⟨f1, f2, f3, f4⟩ :=
      traverseForest_text_budget env g henv t himg2.2 (traverseNodes env n s).state
    have hb1 : env.textLimit - (traverseNodes env n s).state.textUsed
        = env.textLimit - s.textUsed - (eligibleTexts1 n).length := by
      rw [e4]; omega
    refine ⟨?_, ?_, ?_, ?_⟩
    · simp [traverseForest, e1, f1]
    · simp [traverseForest, e1, Log.append, e2, f2, hb1, eligibleTextsF,
        allTextDataF, eligOf_append, eligibleTexts1,
        List.take_append_eq_append_take]
    · simp [traverseForest, e1, allTextDataF, e3, f3, hb1, rephraseFirst_append,
        eligibleTexts1]
    · simp [traverseForest, e1, f4, e4, hb1, eligibleTextsF, allTextDataF,
        eligOf_append, eligibleTexts1, List.length_append]
      omega
end


theorem getAttr_setAttr (k v : List Char) :
    ∀ l, getAttr k (setAttr k v l) = some v := by
  intro l
  induction l with
  | nil => simp [setAttr, getAttr]
  | cons p rest ih =>
    obtain ⟨a, w⟩ := p
    by_cases h : a = k <;> simp [setAttr, getAttr, h, ih]

/-! The claims. -/

/-- C1 counterexample: the claim "if the capabilities are identity
functions then the output is byte-identical to the input" fails on the
code.  First conjunct: with an identity rephraser, identity regeneration
(the walk never reads the regenerated bytes, so every successful
regeneration subsumes the identity one) and image limit 1, the document
consisting of one `img` node referencing `a.jpg` comes back with its `src`
attribute rewritten to `a.png` — a mutation performed by line 356 of the
source regardless of what the regenerator returned.  Second conjunct: even
with image processing disabled, an identity rephraser is not the identity
on a text payload containing a dollar-backquote pair, because
`String.replace` expands such patterns in the replacement string. -/
theorem c1_counterexample :
    (replaceTextsAndImagesInDom envIdImg docOneImg).nodes ≠ docOneImg ∧
      (replaceTextsAndImagesInDom envIdNoImg (.cons (.text trickyText) .nil)).nodes
        ≠ .cons (.text trickyText) .nil := by
  decide

/-- C1 (amended): if the rephraser is the identity, image processing is
disabled (`imageLimit = 0`), and no text payload contains a dollar sign,
the walk returns the document tree unchanged and raises nothing; the claim
as stated fails because a processed image node has its `src` extension
rewritten to `.png` even when the regenerator is the identity, and because
`String.replace` expands dollar patterns.  Byte-identity of the full
`process` additionally depends on the third-party parse/serialize
round-trip, outside this repository. -/
theorem c1_roundtrip_identity (env : Env) (doc : Forest)
    (hrep : ∀ t, env.rephrase t = .ok t) (h0 : env.imageLimit = 0)
    (hdf : dollarFreeF doc) :
    (replaceTextsAndImagesInDom env doc).nodes = doc ∧
      (replaceTextsAndImagesInDom env doc).err = none :=
  traverseForest_identity env hrep h0 doc (fun d hd => hdf d hd) ⟨0, 0⟩

/-- C1 witness: the amended round-trip at a concrete two-node document. -/
theorem c1_roundtrip_identity_witness :
    envIdNoImg.imageLimit = 0 ∧
      (replaceTextsAndImagesInDom envIdNoImg docTwoTexts).nodes = docTwoTexts :=
  ⟨rfl,
    (c1_roundtrip_identity envIdNoImg docTwoTexts (fun t => rfl) rfl
      (by unfold dollarFreeF; decide)).1⟩

/-- C2: with `textLimit = N` and a document (with the htmlparser2
guarantee that `img` elements are childless) holding `M > N` eligible text
nodes, a fully-succeeding run sends exactly the first `N` eligible nodes
(in pre-order, as their trimmed payloads) to the rephraser, and the
resulting text payloads are those of `rephraseFirst`: the first `N`
eligible payloads rephrased in place, every other payload unmodified. -/
theorem c2_budget_respected (env : Env) (g : List Char → List Char)
    (doc : Forest) (henv : Env.Succeeds env g)
    (himg : imgChildlessF doc = true)
    (hM : env.textLimit < (eligibleTextsF doc).length) :
    (replaceTextsAndImagesInDom env doc).log.rephrases
        = (eligibleTextsF doc).take env.textLimit ∧
      (replaceTextsAndImagesInDom env doc).log.rephrases.length = env.textLimit ∧
      allTextDataF (replaceTextsAndImagesInDom env doc).nodes
        = rephraseFirst g env.textLimit (allTextDataF doc) := by
  obtain ⟨e1, e2, e3, e4⟩ := traverseForest_text_budget env g henv doc himg ⟨0, 0⟩
  refine ⟨?_, ?_, ?_⟩
  · simpa [replaceTextsAndImagesInDom] using e2
  · have : (replaceTextsAndImagesInDom env doc).log.rephrases
        = (eligibleTextsF doc).take env.textLimit := by
      simpa [replaceTextsAndImagesInDom] using e2
    rw [this, List.length_take]
    omega
  · simpa [replaceTextsAndImagesInDom] using e3

/-- C2 witness: text limit 1 against a document with 2 eligible nodes. -/
theorem c2_budget_respected_witness :
    (envIdT1.textLimit < (eligibleTextsF docTwoTexts).length) ∧
      (replaceTextsAndImagesInDom envIdT1 docTwoTexts).log.rephrases
        = (eligibleTextsF docTwoTexts).take envIdT1.textLimit :=
  ⟨by decide,
    (c2_budget_respected envIdT1 id docTwoTexts
      ⟨fun t => rfl, fun p => rfl, fun p => rfl⟩ (by decide) (by decide)).1⟩

/-- C3: `reserve` (the check-and-increment on a generation counter)
returns true and increments exactly when `used < limit`, leaves the
counter untouched when it returns false, and consequently both counters of
a run that starts at zero remain at or below their limits after any walk
(and hence, by the same preservation applied pointwise, at every
intermediate node boundary). -/
theorem c3_budget_reservation :
    (∀ used limit : Nat,
        ((reserve used limit).1 = true ∧ (reserve used limit).2 = used + 1)
          ↔ used < limit) ∧
      (∀ used limit : Nat,
        (reserve used limit).1 = false → (reserve used limit).2 = used) ∧
      (∀ (env : Env) (doc : Forest) (s : WalkState),
        s.textUsed ≤ env.textLimit → s.imageUsed ≤ env.imageLimit →
          (traverseForest env doc s).state.textUsed ≤ env.textLimit ∧
            (traverseForest env doc s).state.imageUsed ≤ env.imageLimit) ∧
      (∀ (env : Env) (doc : Forest),
        (replaceTextsAndImagesInDom env doc).state.textUsed ≤ env.textLimit ∧
          (replaceTextsAndImagesInDom env doc).state.imageUsed
            ≤ env.imageLimit) := by
  refine ⟨?_, ?_, ?_, ?_⟩
  · intro used limit
    constructor
    · rintro ⟨h1, h2⟩
      by_contra hlt
      simp [reserve, hlt] at h1
    · intro hlt
      simp [reserve, hlt]
  · intro used limit h
    by_cases hlt : used < limit
    · simp [reserve, hlt] at h
    · simp [reserve, hlt]
  · intro env doc s ht hi
    exact traverseForest_budget env doc s ht hi
  · intro env doc
    exact traverseForest_budget env doc ⟨0, 0⟩ (Nat.zero_le _) (Nat.zero_le _)

/-- C3 witness: the reservation equivalence and the invariant at concrete
inputs. -/
theorem c3_budget_reservation_witness :
    ((reserve 0 1).1 = true ∧ (reserve 0 1).2 = 0 + 1) ∧
      (reserve 1 1).2 = 1 ∧
      (replaceTextsAndImagesInDom envIdT1 docTwoTexts).state.textUsed
        ≤ envIdT1.textLimit :=
  ⟨(c3_budget_reservation.1 0 1).mpr (by decide),
    c3_budget_reservation.2.1 1 1 (by decide),
    (c3_budget_reservation.2.2.2 envIdT1 docTwoTexts).1⟩

/-- C4 counterexample: the rephraser answers the two-dollar string for the
payload consisting of "Hi" between double spaces; the claim as stated
requires the new payload to be that replacement between the original
whitespace, but `String.replace` expands the dollar-dollar pattern, so the
node actually ends with a single dollar sign between the spaces. -/
theorem c4_counterexample :
    (traverseNodes envDollar (.text (s2l "  Hi  ")) ⟨0, 0⟩).node
        ≠ .text (leadWS (s2l "  Hi  ") ++ (s2l "$$" ++ trailWS (s2l "  Hi  "))) ∧
      (traverseNodes envDollar (.text (s2l "  Hi  ")) ⟨0, 0⟩).node
        = .text (s2l "  $  ") := by
  decide

/-- C4 (amended): for a text node with non-whitespace content, processed
within budget, whose returned replacement contains no dollar sign, exactly
the trimmed payload is sent to the rephraser and the new payload is the
original leading whitespace, then the replacement verbatim, then the
original trailing whitespace; the unamended claim fails only when the
replacement contains `String.replace` dollar-substitution patterns. -/
theorem c4_whitespace_preserved (env : Env) (d repl : List Char)
    (s : WalkState) (ht : jsTrim d ≠ []) (hlt : s.textUsed < env.textLimit)
    (hrep : env.rephrase (jsTrim d) = .ok repl) (hd : dollarC ∉ repl) :
    (traverseNodes env (.text d) s).node
        = .text (leadWS d ++ (repl ++ trailWS d)) ∧
      (traverseNodes env (.text d) s).log.rephrases = [jsTrim d] ∧
      leadWS d ++ (jsTrim d ++ trailWS d) = d ∧
      (∀ c ∈ leadWS d, jsIsWS c = true) ∧
      (∀ c ∈ trailWS d, jsIsWS c = true) := by
  refine ⟨?_, ?_, leadWS_decomp d, fun c hc => mem_leadWS_ws d hc,
    fun c hc => mem_trailWS_ws d hc⟩
  · simp [traverseNodes, ht, reserve, hlt, hrep,
      jsReplace_trim_no_dollar d repl ht hd]
  · simp [traverseNodes, ht, reserve, hlt, hrep]

/-- C4 witness: the specification example, payload "  Hello world  "
followed by a newline with replacement "Greetings, world". -/
theorem c4_whitespace_preserved_witness :
    jsTrim (s2l "  Hello world  \n") ≠ [] ∧
      (traverseNodes envGreet (.text (s2l "  Hello world  \n")) ⟨0, 0⟩).node
        = .text (leadWS (s2l "  Hello world  \n")
            ++ (s2l "Greetings, world" ++ trailWS (s2l "  Hello world  \n"))) :=
  ⟨by decide,
    (c4_whitespace_preserved envGreet (s2l "  Hello world  \n")
      (s2l "Greetings, world") ⟨0, 0⟩ (by decide) (by decide) rfl (by decide)).1⟩


/-- C5: whenever the shrink loop of `convertImageToPng` terminates, the
buffer it goes on to write has encoded size at most `PNG_MAX_FILE_SIZE`
(4 MiB); each iteration requests a resize of the current buffer to
`Math.round(width * 0.9)` and re-encodes; and provided the encoder honours
the requested width (as `sharp` does, choosing the height to preserve the
aspect ratio), the width never increases across iterations. -/
theorem c5_normalization_ceiling {α : Type}
    (resizeEncode : α → Nat → α × SharpInfo)
    (hw : ∀ d w, (resizeEncode d w).2.width = w) :
    (∀ fuel st out, shrinkLoop resizeEncode fuel st = some out →
        out.2.size ≤ PNG_MAX_FILE_SIZE) ∧
      (∀ (fuel : Nat) (d : α) (i : SharpInfo), PNG_MAX_FILE_SIZE < i.size →
        shrinkLoop resizeEncode (fuel + 1) (d, i)
          = shrinkLoop resizeEncode fuel (resizeEncode d (jsRound9 i.width))) ∧
      (∀ w, jsRound9 w ≤ w) ∧
      (∀ fuel st out, shrinkLoop resizeEncode fuel st = some out →
        out.2.width ≤ st.2.width) := by
  have hsize : ∀ fuel st out, shrinkLoop resizeEncode fuel st = some out →
      out.2.size ≤ PNG_MAX_FILE_SIZE := by
    intro fuel
    induction fuel with
    | zero => intro st out h; simp [shrinkLoop] at h
    | succ k ih =>
      intro st out h
      obtain ⟨d, i⟩ := st
      rw [shrinkLoop] at h
      split at h
      · exact ih _ out h
      · rename_i hle
        injection h with h2
        subst h2
        simpa using Nat.not_lt.mp hle
  have hwidth : ∀ fuel st out, shrinkLoop resizeEncode fuel st = some out →
      out.2.width ≤ st.2.width := by
    intro fuel
    induction fuel with
    | zero => intro st out h; simp [shrinkLoop] at h
    | succ k ih =>
      intro st out h
      obtain ⟨d, i⟩ := st
      rw [shrinkLoop] at h
      split at h
      · have h1 := ih _ out h
        have h2 : (resizeEncode d (jsRound9 i.width)).2.width = jsRound9 i.width :=
          hw d _
        show out.2.width ≤ i.width
        have h3 : jsRound9 i.width ≤ i.width := by unfold jsRound9; omega
        omega
      · injection h with h2
        subst h2
        exact Nat.le_refl _
  refine ⟨hsize, ?_, ?_, hwidth⟩
  · intro fuel d i h
    simp [shrinkLoop, h]
  · intro w
    unfold jsRound9
    omega

/-- C5 witness: the ceiling and monotonicity facts at a concrete
width-honouring encoder. -/
theorem c5_normalization_ceiling_witness :
    (∀ (d : Unit) (w : Nat),
        ((fun (_ : Unit) (w : Nat) => ((), SharpInfo.mk w w 0)) d w).2.width = w) ∧
      (∀ fuel st out,
        shrinkLoop (fun (_ : Unit) (w : Nat) => ((), SharpInfo.mk w w 0)) fuel st
            = some out →
          out.2.size ≤ PNG_MAX_FILE_SIZE) :=
  ⟨fun _ _ => rfl,
    (c5_normalization_ceiling (fun (_ : Unit) (w : Nat) => ((), SharpInfo.mk w w 0))
      (fun _ _ => rfl)).1⟩

/-- C6: with `imageLimit = 0`, a walk over any document performs no
normalization, no image regeneration and no file write, however many image
nodes the document holds (the workspace resolver is still consulted for
each resolvable image reference, but that is not an image-processing
effect). -/
theorem c6_image_disabled (env : Env) (doc : Forest)
    (h0 : env.imageLimit = 0) :
    (replaceTextsAndImagesInDom env doc).log.normalizes = [] ∧
      (replaceTextsAndImagesInDom env doc).log.regens = [] ∧
      (replaceTextsAndImagesInDom env doc).log.writes = [] :=
  traverseForest_img_disabled env h0 doc ⟨0, 0⟩

/-- C6 witness: a document with an image node under image limit 0. -/
theorem c6_image_disabled_witness :
    envIdNoImg.imageLimit = 0 ∧
      (replaceTextsAndImagesInDom envIdNoImg docOneImg).log.normalizes = [] ∧
      (replaceTextsAndImagesInDom envIdNoImg docOneImg).log.regens = [] ∧
      (replaceTextsAndImagesInDom envIdNoImg docOneImg).log.writes = [] :=
  ⟨rfl, c6_image_disabled envIdNoImg docOneImg rfl⟩

/-- C7 counterexample: with image limit 0 no reservation can succeed, yet
walking a document holding one resolvable `img` node invokes the workspace
resolver (real work: a workspace-wide file search plus a stat): the
resolve log is nonempty while the image counter never moved.  This
refutes "reservation happens before any work, including resolution of the
referenced file, and a failed reservation means no work is done". -/
theorem c7_counterexample :
    (replaceTextsAndImagesInDom envIdNoImg docOneImg).log.resolves
        = [s2l "a.jpg"] ∧
      (replaceTextsAndImagesInDom envIdNoImg docOneImg).state.imageUsed = 0 ∧
      (replaceTextsAndImagesInDom envIdNoImg docOneImg).log.resolves ≠ [] := by
  decide

/-- C7 (amended): for an `img` node with a non-empty `src`, the workspace
resolution is performed first; reservation is checked only afterwards, and
when it fails the node, the counters and the remaining traversal are left
exactly as they were, with no normalization, regeneration or write — the
only work already done for the node being the resolver call. -/
theorem c7_reservation_after_resolution (env : Env) (nm : List Char)
    (attribs : List (List Char × List Char)) (ch : Forest) (sv fp : List Char)
    (s : WalkState) (hnm : nm = s2l "img")
    (hsv : getAttr (s2l "src") attribs = some sv) (hne : sv ≠ [])
    (hres : env.resolve sv = some fp)
    (hlim : ¬ s.imageUsed < env.imageLimit) :
    traverseNodes env (.tag nm attribs ch) s
      = ⟨.tag nm attribs ch, s, ⟨[sv], [], [], [], []⟩, none⟩ := by
  subst hnm
  simp [traverseNodes, hsv, hne, hres, reserve, hlim]

/-- C7 witness: the amended statement at the concrete one-image document
with image limit 0. -/
theorem c7_reservation_after_resolution_witness :
    (¬ (0 : Nat) < envIdNoImg.imageLimit) ∧
      traverseNodes envIdNoImg (.tag (s2l "img") [(s2l "src", s2l "a.jpg")] .nil)
          ⟨0, 0⟩
        = ⟨.tag (s2l "img") [(s2l "src", s2l "a.jpg")] .nil, ⟨0, 0⟩,
            ⟨[s2l "a.jpg"], [], [], [], []⟩, none⟩ :=
  ⟨by decide,
    c7_reservation_after_resolution envIdNoImg (s2l "img")
      [(s2l "src", s2l "a.jpg")] .nil (s2l "a.jpg") (s2l "a.jpg") ⟨0, 0⟩ rfl
      (by decide) (by decide) rfl (by decide)⟩

/-- C8: for a processed image node (resolvable `src`, budget reserved),
when the regeneration call or the write of the regenerated bytes fails,
the exception aborts processing before line 356, so the node — in
particular its `src` attribute — retains its original value; when both
succeed, the `src` attribute now holds the reference with its extension
rewritten to `.png` and the write of the regenerated bytes to the `.png`
output path is in the log. -/
theorem c8_attribute_after_write (env : Env) (nm : List Char)
    (attribs : List (List Char × List Char)) (ch : Forest) (sv fp : List Char)
    (s : WalkState) (hnm : nm = s2l "img")
    (hsv : getAttr (s2l "src") attribs = some sv) (hne : sv ≠ [])
    (hres : env.resolve sv = some fp) (hlim : s.imageUsed < env.imageLimit) :
    (¬ (env.regenOk (replaceFileExtensionToPng fp) = true ∧
          env.writeOk (replaceFileExtensionToPng fp) = true) →
        (traverseNodes env (.tag nm attribs ch) s).node = .tag nm attribs ch ∧
          (traverseNodes env (.tag nm attribs ch) s).err ≠ none) ∧
      ((env.regenOk (replaceFileExtensionToPng fp) = true ∧
          env.writeOk (replaceFileExtensionToPng fp) = true) →
        ∃ ch2, (traverseNodes env (.tag nm attribs ch) s).node
            = .tag nm (setAttr (s2l "src") (replaceFileExtensionToPng sv) attribs)
                ch2 ∧
          getAttr (s2l "src")
              (setAttr (s2l "src") (replaceFileExtensionToPng sv) attribs)
            = some (replaceFileExtensionToPng sv) ∧
          replaceFileExtensionToPng fp
            ∈ (traverseNodes env (.tag nm attribs ch) s).log.writes) := by
  subst hnm
  constructor
  · intro hfail
    by_cases hreg : env.regenOk (replaceFileExtensionToPng fp) = true
    · have hwr : ¬ env.writeOk (replaceFileExtensionToPng fp) = true := by
        intro hw; exact hfail ⟨hreg, hw⟩
      simp [traverseNodes, hsv, hne, hres, reserve, hlim, replaceImageE,
        convertImageToPngE, hreg, hwr]
    · simp [traverseNodes, hsv, hne, hres, reserve, hlim, replaceImageE,
        convertImageToPngE, hreg]
  · rintro ⟨hreg, hwr⟩
    refine ⟨(traverseForest env ch ⟨s.textUsed, s.imageUsed + 1⟩).nodes, ?_, ?_, ?_⟩
    · simp [traverseNodes, hsv, hne, hres, reserve, hlim, replaceImageE,
        convertImageToPngE, hreg, hwr]
    · exact getAttr_setAttr _ _ _
    · simp [traverseNodes, hsv, hne, hres, reserve, hlim, replaceImageE,
        convertImageToPngE, hreg, hwr, Log.append]

/-- C8 witness: both arms at concrete environments (all-succeeding, and
regeneration failing). -/
theorem c8_attribute_after_write_witness :
    ((0 : Nat) < envIdImg.imageLimit ∧
      ∃ ch2, (traverseNodes envIdImg
            (.tag (s2l "img") [(s2l "src", s2l "a.jpg")] .nil) ⟨0, 0⟩).node
          = .tag (s2l "img")
              (setAttr (s2l "src") (replaceFileExtensionToPng (s2l "a.jpg"))
                [(s2l "src", s2l "a.jpg")]) ch2 ∧
        getAttr (s2l "src")
            (setAttr (s2l "src") (replaceFileExtensionToPng (s2l "a.jpg"))
              [(s2l "src", s2l "a.jpg")])
          = some (replaceFileExtensionToPng (s2l "a.jpg")) ∧
        replaceFileExtensionToPng (s2l "a.jpg")
          ∈ (traverseNodes envIdImg
              (.tag (s2l "img") [(s2l "src", s2l "a.jpg")] .nil) ⟨0, 0⟩).log.writes) ∧
    ((traverseNodes envNormFail
          (.tag (s2l "img") [(s2l "src", s2l "a.jpg")] .nil) ⟨0, 0⟩).node
        = .tag (s2l "img") [(s2l "src", s2l "a.jpg")] .nil) :=
  ⟨⟨by decide,
    (c8_attribute_after_write envIdImg (s2l "img") [(s2l "src", s2l "a.jpg")]
        .nil (s2l "a.jpg") (s2l "a.jpg") ⟨0, 0⟩ rfl (by decide) (by decide) rfl
        (by decide)).2 ⟨rfl, rfl⟩⟩,
    ((c8_attribute_after_write envNormFail (s2l "img") [(s2l "src", s2l "a.jpg")]
        .nil (s2l "a.jpg") (s2l "a.jpg") ⟨0, 0⟩ rfl (by decide) (by decide) rfl
        (by decide)).1 (by decide)).1⟩

/-- C9: a relative reference with zero `findFiles` matches makes
`getFilePathFromWorkspace` return `undefined` (the stat on the undefined
first match throws and is caught) rather than raise; and the walker treats
an unresolvable `img` node as node-local: the node is returned untouched,
no error is raised, and the traversal continues over the following
siblings from an unchanged state. -/
theorem c9_notfound_node_local :
    (∀ (ws : Workspace) (fileName : List Char), ws.findFiles fileName = [] →
        getFilePathFromWorkspace ws fileName = none) ∧
      (∀ (env : Env) (nm : List Char) (attribs : List (List Char × List Char))
        (ch : Forest) (sv : List Char) (rest : Forest) (s : WalkState),
        nm = s2l "img" → getAttr (s2l "src") attribs = some sv → sv ≠ [] →
        env.resolve sv = none →
          traverseNodes env (.tag nm attribs ch) s
              = ⟨.tag nm attribs ch, s, ⟨[sv], [], [], [], []⟩, none⟩ ∧
            traverseForest env (.cons (.tag nm attribs ch) rest) s
              = ⟨.cons (.tag nm attribs ch) (traverseForest env rest s).nodes,
                  (traverseForest env rest s).state,
                  Log.append ⟨[sv], [], [], [], []⟩ (traverseForest env rest s).log,
                  (traverseForest env rest s).err⟩) := by
  constructor
  · intro ws fileName h
    unfold getFilePathFromWorkspace
    cases hf : ws.hasFolders <;> simp [h, hf]
  · intro env nm attribs ch sv rest s hnm hsv hne hres
    have h1 := traverseNodes_img_unresolved env nm attribs ch sv hnm hsv hne hres s
    refine ⟨h1, ?_⟩
    simp [traverseForest, h1]

/-- C9 witness: an environment resolving nothing, a one-image document
followed by a text sibling that is still visited. -/
theorem c9_notfound_node_local_witness :
    ((Workspace.mk true (fun _ => []) (fun _ => true)).findFiles (s2l "a.jpg")
        = [] ∧
      getFilePathFromWorkspace (Workspace.mk true (fun _ => []) (fun _ => true))
          (s2l "a.jpg")
        = none) ∧
      traverseNodes ⟨10, 3, fun _ => none, fun t => .ok t, fun _ => true,
            fun _ => true, fun _ => true⟩
          (.tag (s2l "img") [(s2l "src", s2l "a.jpg")] .nil) ⟨0, 0⟩
        = ⟨.tag (s2l "img") [(s2l "src", s2l "a.jpg")] .nil, ⟨0, 0⟩,
            ⟨[s2l "a.jpg"], [], [], [], []⟩, none⟩ :=
  ⟨⟨rfl,
    c9_notfound_node_local.1 (Workspace.mk true (fun _ => []) (fun _ => true))
      (s2l "a.jpg") rfl⟩,
    (c9_notfound_node_local.2
      ⟨10, 3, fun _ => none, fun t => .ok t, fun _ => true, fun _ => true,
        fun _ => true⟩
      (s2l "img") [(s2l "src", s2l "a.jpg")] .nil (s2l "a.jpg") .nil ⟨0, 0⟩ rfl
      (by decide) (by decide) rfl).1⟩

/-- C10: `convertImageToPng` is modelled by the total effects function
`convertImageToPngE` because its whole body sits in a try/catch: a
normalization failure is recorded, writes nothing, and raises nothing.
For an image node whose processing reaches `replaceImage` with
normalization failing: the conversion record shows the failure with no
write, yet the first regeneration call of the log is still made on the
`.png` output path — the caller proceeds as if conversion had succeeded —
and if that regeneration then fails, the walk error is the regeneration
failure with no file written at all, never a normalization error. -/
theorem c10_normalization_failure_invisible (env : Env) (nm : List Char)
    (attribs : List (List Char × List Char)) (ch : Forest) (sv fp : List Char)
    (s : WalkState) (hnm : nm = s2l "img")
    (hsv : getAttr (s2l "src") attribs = some sv) (hne : sv ≠ [])
    (hres : env.resolve sv = some fp) (hlim : s.imageUsed < env.imageLimit)
    (hnorm : env.normOk fp = false) :
    convertImageToPngE (env.normOk fp) fp (replaceFileExtensionToPng fp)
        = ([(fp, replaceFileExtensionToPng fp, false)], []) ∧
      (traverseNodes env (.tag nm attribs ch) s).log.normalizes.head?
        = some (fp, replaceFileExtensionToPng fp, false) ∧
      (traverseNodes env (.tag nm attribs ch) s).log.regens.head?
        = some (replaceFileExtensionToPng fp) ∧
      (env.regenOk (replaceFileExtensionToPng fp) = false →
        (traverseNodes env (.tag nm attribs ch) s).err = some .regenFail ∧
          (traverseNodes env (.tag nm attribs ch) s).log.writes = []) := by
  subst hnm
  refine ⟨by simp [convertImageToPngE, hnorm], ?_, ?_, ?_⟩
  · by_cases hreg : env.regenOk (replaceFileExtensionToPng fp) = true
    · by_cases hwr : env.writeOk (replaceFileExtensionToPng fp) = true
      · simp [traverseNodes, hsv, hne, hres, reserve, hlim, replaceImageE,
          convertImageToPngE, hreg, hwr, hnorm, Log.append]
      · simp [traverseNodes, hsv, hne, hres, reserve, hlim, replaceImageE,
          convertImageToPngE, hreg, hwr, hnorm, Log.append]
    · simp [traverseNodes, hsv, hne, hres, reserve, hlim, replaceImageE,
        convertImageToPngE, hreg, hnorm, Log.append]
  · by_cases hreg : env.regenOk (replaceFileExtensionToPng fp) = true
    · by_cases hwr : env.writeOk (replaceFileExtensionToPng fp) = true
      · simp [traverseNodes, hsv, hne, hres, reserve, hlim, replaceImageE,
          convertImageToPngE, hreg, hwr, hnorm, Log.append]
      · simp [traverseNodes, hsv, hne, hres, reserve, hlim, replaceImageE,
          convertImageToPngE, hreg, hwr, hnorm, Log.append]
    · simp [traverseNodes, hsv, hne, hres, reserve, hlim, replaceImageE,
        convertImageToPngE, hreg, hnorm, Log.append]
  · intro hreg
    have hreg2 : ¬ env.regenOk (replaceFileExtensionToPng fp) = true := by
      rw [hreg]; exact Bool.noConfusion
    constructor
    · simp [traverseNodes, hsv, hne, hres, reserve, hlim, replaceImageE,
        convertImageToPngE, hreg2, hnorm, Log.append]
    · simp [traverseNodes, hsv, hne, hres, reserve, hlim, replaceImageE,
        convertImageToPngE, hreg2, hnorm, Log.append]

/-- C10 witness: the failing-normalization environment at the one-image
document. -/
theorem c10_normalization_failure_invisible_witness :
    envNormFail.normOk (s2l "a.jpg") = false ∧
      (traverseNodes envNormFail
          (.tag (s2l "img") [(s2l "src", s2l "a.jpg")] .nil) ⟨0, 0⟩).log.regens.head?
        = some (replaceFileExtensionToPng (s2l "a.jpg")) :=
  ⟨rfl,
    (c10_normalization_failure_invisible envNormFail (s2l "img")
      [(s2l "src", s2l "a.jpg")] .nil (s2l "a.jpg") (s2l "a.jpg") ⟨0, 0⟩ rfl
      (by decide) (by decide) rfl (by decide) rfl).2.2.1⟩

end Renew
